import Mathlib

/-!
Verification of the File-Janitor core pipeline (plan generation and
collision-safe execution) against its natural-language specification.

The C++ sources are shallowly embedded:
* `std::filesystem::path` is modelled as a list of components (`Path`),
  with `filename`/`parent_path`/`stem`/`extension` following the
  `std::filesystem` rules (a leading dot of the filename starts no extension).
* the filesystem is a state value (`FS`): a list of existing paths plus
  oracles giving the outcome of `create_directories` and `rename`, so that
  every pattern of per-operation success and failure is covered.
* `int` counters are modelled as `Nat` (they only ever increase from 0);
  derived quantities that subtract are computed in `Int` as the source does.
-/

namespace FileJanitor

/-- A filesystem path, modelled as its list of components. -/
abbrev Path := List String

/-- `fs::path::operator/`: append one more component. -/
def pjoin (p : Path) (s : String) : Path := p ++ [s]

/-- `fs::path::filename()`: the last component (empty for the empty path). -/
def pfilename (p : Path) : String := p.getLastD ""

/-- `fs::path::parent_path()`: all components but the last. -/
def parent_path (p : Path) : Path := p.dropLast

/-- Split a character list at its rightmost `'.'`: returns the part before
the dot and the part from the dot on.  `none` when there is no dot. -/
def splitAtLastDot : List Char → Option (List Char × List Char)
  | [] => none
  | c :: rest =>
    match splitAtLastDot rest with
    | some (s, e) => some (c :: s, e)
    | none => if c = '.' then some ([], c :: rest) else none

/-- `std::filesystem` extension of a filename: the substring from the
rightmost dot, unless the filename is `.` or `..` or the rightmost dot is
the leading character (dotfiles have no extension). -/
def fextension (f : String) : String :=
  if f = "." ∨ f = ".." then ""
  else
    match splitAtLastDot f.toList with
    | none => ""
    | some (s, e) => if s = [] then "" else String.mk e

/-- `std::filesystem` stem of a filename: what `fextension` leaves over. -/
def fstem (f : String) : String :=
  if f = "." ∨ f = ".." then f
  else
    match splitAtLastDot f.toList with
    | none => f
    | some (s, _) => if s = [] then f else String.mk s

/-- `fs::path::extension()` as a string. -/
def path_extension (p : Path) : String := fextension (pfilename p)

/-- `fs::path::has_extension()`. -/
def path_has_extension (p : Path) : Bool := path_extension p ≠ ""

/-- `fs::path::stem()` as a string. -/
def path_stem (p : Path) : String := fstem (pfilename p)

/-- `std::tolower` in the C locale: ASCII-only case folding. -/
def toLowerChar (c : Char) : Char :=
  if 'A' ≤ c ∧ c ≤ 'Z' then Char.ofNat (c.toNat + 32) else c

/-- Lowercase a string character by character (ASCII case folding). -/
def toLowerStr (s : String) : String := String.mk (s.toList.map toLowerChar)

/-- `fs_ops::normalize_extension` (src/src/fs_ops.cxx): the empty string
when the path has no extension, otherwise the extension lowercased. -/
def normalize_extension (p : Path) : String :=
  if path_has_extension p then toLowerStr (path_extension p) else ""

/-- `fs_ops::ScannedFile` / `fs_ops::scanned_file`: a path decorated with
its normalized extension. -/
structure ScannedFile where
  path : Path
  ext  : String
deriving Repr, DecidableEq

/-- `fs_ops::make_bucket_name` (src/src/fs_ops.cxx; identical to
`make_bucket` in src/src/fs_ops/planner/planner.cxx): `"no_extension"`
for an empty extension, otherwise the extension without its leading dot. -/
def make_bucket_name (file : ScannedFile) : String :=
  if file.ext = "" then "no_extension" else file.ext.drop 1

/-- `fs_ops::decorate_with_extensions` (src/src/fs_ops.cxx): decorate each
raw path with `normalize_extension` of the path itself. -/
def decorate_with_extensions (raw_files : List Path) : List ScannedFile :=
  raw_files.map fun p => { path := p, ext := normalize_extension p }

/-- Byte-wise lexicographic `≤` on character lists — the order
`std::string::operator<=>` induces (all strings here are ASCII). -/
def charListLe : List Char → List Char → Bool
  | [], _ => true
  | _ :: _, [] => false
  | a :: as, b :: bs =>
    if a.toNat < b.toNat then true
    else if b.toNat < a.toNat then false
    else charListLe as bs

/-- Lexicographic `≤` on strings, as `std::string` comparison. -/
def strLe (a b : String) : Bool := charListLe a.toList b.toList

/-- Insert a file into a list that is already ordered by extension. -/
def insertByExt (f : ScannedFile) : List ScannedFile → List ScannedFile
  | [] => [f]
  | g :: gs => if strLe f.ext g.ext then f :: g :: gs else g :: insertByExt f gs

/-- Executable model of `fs_ops::sort_by_extension`
(`rng::sort(to_sort, {}, &ScannedFile::extension)`): a sort by the
extension key.  `std::ranges::sort` promises only a permutation ordered by
the key — the relative order of equal keys is implementation-defined — so
properties that depend on the order of equal extensions are stated against
the contract `SortSpec` below, not against this particular function. -/
def sort_by_extension (raw_files : List ScannedFile) : List ScannedFile :=
  raw_files.foldr insertByExt []

/-- The postcondition of the `std::ranges::sort` call in
`sort_by_extension`: the output is a permutation of the input and is
ordered by the extension key.  Nothing more is guaranteed; in particular
the order of files sharing an extension is unspecified. -/
def SortSpec (input output : List ScannedFile) : Prop :=
  output.Perm input ∧ output.Pairwise fun a b => strLe a.ext b.ext = true

/-- `vws::chunk_by R`: split a list into maximal runs of consecutive
elements pairwise related by `R`. -/
def chunkBy (R : α → α → Bool) : List α → List (List α)
  | [] => []
  | [a] => [[a]]
  | a :: b :: rest =>
    match chunkBy R (b :: rest) with
    | [] => [[a]]
    | c :: cs => if R a b then (a :: c) :: cs else [a] :: c :: cs

/-- `Operation` (src/include/fs_ops.hxx) and `fs_ops::successful_operation`
(src/include/fs_ops/fs_ops.hxx): one planned move. -/
structure Operation where
  source      : Path
  destination : Path
  bucket_name : String
deriving Repr, DecidableEq

/-- `MovementPlan` / `fs_ops::movement_plan`: an ordered list of operations. -/
structure MovementPlan where
  operations : List Operation
deriving Repr, DecidableEq

/-- The per-chunk lambda `make_move_plans` inside `fs_ops::generate`:
compute the bucket name once from `chunk.front()` and emit one operation
per file.  (The planning pipeline filters empty chunks away, so the `[]`
case is never reached.) -/
def make_move_plans (root_path : Path) (chunk : List ScannedFile) : List Operation :=
  match chunk with
  | [] => []
  | front :: _ =>
    chunk.map fun file =>
      { source := file.path
        destination := pjoin (pjoin root_path (make_bucket_name front)) (pfilename file.path)
        bucket_name := make_bucket_name front }

/-- `fs_ops::generate` (src/src/fs_ops.cxx; `generate` in
src/src/fs_ops/planner/planner.cxx is verbatim identical): chunk the
sorted files by equal extension, drop empty chunks, emit operations per
chunk and concatenate. -/
def generate (sorted_files : List ScannedFile) (root_path : Path) : MovementPlan :=
  { operations :=
      (((chunkBy (fun a b => a.ext == b.ext) sorted_files).filter
          fun chunk => !chunk.isEmpty).map (make_move_plans root_path)).flatten }

/-- `fs_ops::generate_plan` (src/src/fs_ops.cxx). -/
def generate_plan (raw_files : List Path) (root_path : Path) : MovementPlan :=
  generate (sort_by_extension (decorate_with_extensions raw_files)) root_path

namespace planner

/-- `decorate_with_extensions` in src/src/fs_ops/planner/planner.cxx.
Note the source passes `p.extension().string()` — the extension itself,
converted back to a (single-component) path — to `normalize_extension`,
rather than passing `p`. -/
def decorate_with_extensions (raw_files : List Path) : List ScannedFile :=
  raw_files.map fun p => { path := p, ext := normalize_extension [path_extension p] }

/-- `fs_ops::planner::generate_plan` (src/src/fs_ops/planner/planner.cxx):
same pipeline as the monolithic variant, but over the planner's own
`decorate_with_extensions`; its `sort_by_extension` and `generate` are
verbatim copies of the monolithic ones. -/
def generate_plan (raw_files : List Path) (root_path : Path) : MovementPlan :=
  generate (sort_by_extension (decorate_with_extensions raw_files)) root_path

end planner

/-- The operation `generate` plans for one file. -/
def planOpFor (root_path : Path) (file : ScannedFile) : Operation :=
  { source := file.path
    destination := pjoin (pjoin root_path (make_bucket_name file)) (pfilename file.path)
    bucket_name := make_bucket_name file }

/-! ### Filesystem model and `safe_fs` primitives

The executor touches the real filesystem only through `safe_fs::exists`,
`safe_fs::create_directories` and `safe_fs::rename` (src/src/safe_fs.cxx),
all of which report failure through `std::error_code` values.  The state
`FS` records which paths exist; two oracles decide, for each call, whether
the OS reports an error (covering permission failures, cross-device moves,
races, …), so theorems quantifying over `FS` cover every pattern of
per-operation success and failure. -/

/-- An abstract `std::error_code` value. -/
abbrev ErrorCode := Nat

/-- Filesystem state plus OS-outcome oracles. -/
structure FS where
  entries   : List Path
  mkdirErr  : Path → Option ErrorCode
  renameErr : Path → Path → Option ErrorCode

/-- `safe_fs::exists`. -/
def safe_exists (s : FS) (p : Path) : Bool := s.entries.contains p

/-- The nonempty prefixes of a path: the chain of directories
`fs::create_directories` brings into existence. -/
def path_prefixes (p : Path) : List Path :=
  (List.range p.length).map fun i => p.take (i + 1)

/-- `safe_fs::create_directories`: on success every missing directory on
the chain comes into existence; on error the state is unchanged. -/
def create_directories (s : FS) (p : Path) : Except ErrorCode FS :=
  match s.mkdirErr p with
  | some e => .error e
  | none =>
    .ok { s with entries := s.entries ++ (path_prefixes p).filter fun q => !s.entries.contains q }

/-- `safe_fs::rename`: on success the source entry is renamed to the
target; on error the state is unchanged. -/
def rename_fs (s : FS) (from_p to_p : Path) : Except ErrorCode FS :=
  match s.renameErr from_p to_p with
  | some e => .error e
  | none => .ok { s with entries := to_p :: s.entries.filter fun q => q ≠ from_p }

/-! ### Collision resolver

`resolve_collision` and its helpers appear verbatim both in
src/src/fs_ops.cxx and in src/src/fs_ops/executor/executor.cxx; they are
embedded once. -/

/-- `does_target_exist`: `some target` when the target is free. -/
def does_target_exist (s : FS) (target : Path) : Option Path :=
  if !safe_exists s target then some target else none

/-- `fs_ops::candidate` / `Candidate`: a decomposed destination path. -/
structure Candidate where
  parent : Path
  stem   : String
  ext    : String
deriving Repr, DecidableEq

/-- `build_candidate`. -/
def build_candidate (target : Path) : Candidate :=
  { parent := parent_path target, stem := path_stem target, ext := path_extension target }

/-- `make_candidate_path`: `parent / fmt::format("{} ({}){}", stem, idx, ext)`. -/
def make_candidate_path (c : Candidate) (idx : Nat) : Path :=
  pjoin c.parent (c.stem ++ " (" ++ toString idx ++ ")" ++ c.ext)

/-- `make_candidate_paths`: `vws::iota(1, 100)` yields the indices
`1, …, 99` (the constant is named `max_candidate_index{100}`). -/
def make_candidate_paths (c : Candidate) : List Path :=
  (List.range' 1 99).map (make_candidate_path c)

/-- `find_valid_candidate`: the first candidate that does not exist. -/
def find_valid_candidate (s : FS) (c_paths : List Path) : Option Path :=
  c_paths.find? fun c => !safe_exists s c

/-- `make_valid_candidate`. -/
def make_valid_candidate (s : FS) (target : Path) : Option Path :=
  find_valid_candidate s (make_candidate_paths (build_candidate target))

/-- `resolve_collision`:
`does_target_exist(target).or_else(make_valid_candidate).value_or(target)`. -/
def resolve_collision (s : FS) (target : Path) : Path :=
  match does_target_exist s target with
  | some t => t
  | none => (make_valid_candidate s target).getD target

/-- Candidate `idx` for a target, as probed by the resolver. -/
def target_candidate (target : Path) (idx : Nat) : Path :=
  make_candidate_path (build_candidate target) idx

/-! ### Split executor (src/src/fs_ops/executor/executor.cxx) -/

/-- `fs_ops::failed_operation` (src/include/fs_ops/fs_ops.hxx): note the
recorded `destination` is the *intended* one, pre-resolution. -/
structure failed_operation where
  source      : Path
  destination : Path
  error       : ErrorCode
deriving Repr, DecidableEq

/-- `fs_ops::operation_result` (status tag plus the failure record that is
present exactly in the failure state). -/
inductive operation_result where
  | success : operation_result
  | failure : failed_operation → operation_result
  | skipped : operation_result
deriving Repr, DecidableEq

/-- `fs_ops::executor::execution_report`
(src/include/fs_ops/executor/execution_report.hxx): accumulated failures
plus `int` counters (modelled as `Nat`; they only ever increase from 0). -/
structure execution_report where
  failures_        : List failed_operation
  processed_count_ : Nat
  success_count_   : Nat
deriving Repr, DecidableEq

namespace execution_report

/-- `execution_report::start()`. -/
def start : execution_report := { failures_ := [], processed_count_ := 0, success_count_ := 0 }

/-- Accessor `success_count()`. -/
def success_count (r : execution_report) : Nat := r.success_count_

/-- Accessor `processed_count()`. -/
def processed_count (r : execution_report) : Nat := r.processed_count_

/-- Accessor `failure_count()`: `std::ssize(failures_)`. -/
def failure_count (r : execution_report) : Int := r.failures_.length

/-- Accessor `skipped_count()` (src/src/fs_ops/executor/execution_report.cxx):
derived as `processed_count_ - success_count_ - failure_count()`. -/
def skipped_count (r : execution_report) : Int :=
  (r.processed_count_ : Int) - (r.success_count_ : Int) - r.failure_count

/-- `with_processed`. -/
def with_processed (r : execution_report) : execution_report :=
  { r with processed_count_ := r.processed_count_ + 1 }

/-- `with_success`. -/
def with_success (r : execution_report) : execution_report :=
  { r with success_count_ := r.success_count_ + 1 }

/-- `with_failure`. -/
def with_failure (r : execution_report) (f : failed_operation) : execution_report :=
  { r with failures_ := r.failures_ ++ [f] }

end execution_report

/-- `perform_move` (split executor): create the destination's parent
directory, then rename the source to the collision-resolved destination
(resolved against the state left by the directory creation).  Returns the
error code of the step that failed, if any, plus the resulting state. -/
def perform_move (s : FS) (op : Operation) : Option ErrorCode × FS :=
  match create_directories s (parent_path op.destination) with
  | .error e => (some e, s)
  | .ok s1 =>
    match rename_fs s1 op.source (resolve_collision s1 op.destination) with
    | .error e => (some e, s1)
    | .ok s2 => (none, s2)

/-- `process_operation` (split executor): a `source == destination`
operation is skipped before any filesystem access; otherwise the move is
performed and its outcome recorded, with the failure carrying the
*intended* destination. -/
def process_operation (s : FS) (op : Operation) : operation_result × FS :=
  if op.source = op.destination then (.skipped, s)
  else
    match perform_move s op with
    | (none, s') => (.success, s')
    | (some e, s') =>
      (.failure { source := op.source, destination := op.destination, error := e }, s')

/-- `accumulate_reports` (split executor): every outcome bumps
`processed`; success bumps `success`; failure appends to `failures`;
skipped contributes nothing further. -/
def accumulate_reports (report : execution_report) (result : operation_result) :
    execution_report :=
  match result with
  | .success => report.with_processed.with_success
  | .failure f => report.with_processed.with_failure f
  | .skipped => report.with_processed

/-- One step of the fold in `fs_ops::executor::execute_plan`: process the
next operation against the current filesystem state and accumulate its
outcome into the report. -/
def exec_step (acc : execution_report × FS) (op : Operation) : execution_report × FS :=
  (accumulate_reports acc.1 (process_operation acc.2 op).1, (process_operation acc.2 op).2)

/-- `fs_ops::executor::execute_plan`: a left fold over
`plan.operations | vws::transform(process_operation)`; the lazy view
interleaves processing and accumulation in plan order, so the embedding
threads the filesystem state through the fold. -/
def executor_execute_plan (s : FS) (plan : MovementPlan) : execution_report × FS :=
  plan.operations.foldl exec_step (execution_report.start, s)

/-! ### Monolithic executor (src/src/fs_ops.cxx) -/

/-- `FailedOperation` (src/include/fs_ops.hxx). -/
structure FailedOperation where
  source               : Path
  intended_destination : Path
  error                : ErrorCode
deriving Repr, DecidableEq

/-- `ExecutionReport` (src/include/fs_ops.hxx), with the fluent
`with_processed` / `with_success` / `with_failure` builders. -/
structure ExecutionReport where
  failures        : List FailedOperation
  processed_count : Nat
  success_count   : Nat
deriving Repr, DecidableEq

namespace ExecutionReport

/-- `ExecutionReport::with_processed`. -/
def with_processed (r : ExecutionReport) : ExecutionReport :=
  { r with processed_count := r.processed_count + 1 }

/-- `ExecutionReport::with_success`. -/
def with_success (r : ExecutionReport) : ExecutionReport :=
  { r with success_count := r.success_count + 1 }

/-- `ExecutionReport::with_failure`. -/
def with_failure (r : ExecutionReport) (f : FailedOperation) : ExecutionReport :=
  { r with failures := r.failures ++ [f] }

end ExecutionReport

/-- The filesystem work of `fs_ops::execute` (monolithic variant):
`ensure_directory(op.destination.parent_path())` chained with
`safe_fs::rename(op.source, resolve_collision(op.destination))` — the same
steps as the split executor's `perform_move`. -/
def mono_move (s : FS) (op : Operation) : Option ErrorCode × FS :=
  match create_directories s (parent_path op.destination) with
  | .error e => (some e, s)
  | .ok s1 =>
    match rename_fs s1 op.source (resolve_collision s1 op.destination) with
    | .error e => (some e, s1)
    | .ok s2 => (none, s2)

/-- `fs_ops::execute` (src/src/fs_ops.cxx).  The C++ computes `result` —
including all filesystem effects — eagerly, via an immediately invoked
lambda, *before* testing `op.source == op.destination`.  Its lambda
captures move from `report` twice: the outer capture `rep = std::move(report)`
empties the original report's `failures` vector (ints are copied, the
vector's buffer is stolen), the `.transform` continuation captures the
intact data, and the `.or_else` continuation captures the already
moved-from `rep` — so the failure branch and the skip branch both proceed
from a report whose failure list is empty while the counters survive. -/
def execute (s : FS) (op : Operation) (report : ExecutionReport) :
    ExecutionReport × FS :=
  let moved : ExecutionReport := { report with failures := [] }
  let outcome := mono_move s op
  let result : ExecutionReport :=
    match outcome.1 with
    | none => report.with_processed.with_success
    | some e =>
      (moved.with_processed).with_failure
        { source := op.source, intended_destination := op.destination, error := e }
  if op.source = op.destination then (moved.with_processed, outcome.2)
  else (result, outcome.2)

/-- `fs_ops::execute_plan` (src/src/fs_ops.cxx): a left fold of `execute`
over the plan, threading the filesystem state. -/
def execute_plan (s : FS) (plan : MovementPlan) : ExecutionReport × FS :=
  plan.operations.foldl
    (fun acc op => execute acc.2 op acc.1)
    ({ failures := [], processed_count := 0, success_count := 0 }, s)

/-! ### Plan-time collision-suffix estimator (src/src/organization.cxx) -/

/-- `file_janitor::parse_int`: `std::from_chars` into an `int` — an
optional leading minus then decimal digits, succeeding only when the whole
view is consumed and the value fits a 32-bit `int`. -/
def parse_int (view : String) : Option Int :=
  match view.toList with
  | [] => none
  | cs =>
    let signed := cs.headD ' ' = '-'
    let digits := if signed then cs.tail else cs
    if digits ≠ [] ∧ digits.all Char.isDigit then
      let magnitude : Nat := digits.foldl (fun a c => a * 10 + (c.toNat - 48)) 0
      let value : Int := if signed then -(magnitude : Int) else (magnitude : Int)
      if -(2 ^ 31) ≤ value ∧ value ≤ 2 ^ 31 - 1 then some value else none
    else none

/-- The compile-time regex `^ \((\d+)\)$`: matches a suffix of the form
`" (<digits>)"` and returns the digit capture. -/
def match_suffix_digits (s : String) : Option String :=
  match s.toList with
  | ' ' :: '(' :: rest =>
    match rest.getLast? with
    | some ')' =>
      if rest.dropLast ≠ [] ∧ (rest.dropLast).all Char.isDigit
      then some (String.mk rest.dropLast) else none
    | _ => none
  | _ => none

/-- `std::string_view::starts_with`, over characters (all strings in play
are ASCII, so bytes and characters coincide). -/
def str_starts_with (s pre : String) : Bool := pre.toList.isPrefixOf s.toList

/-- `substr(n)`, over characters. -/
def str_drop (s : String) (n : Nat) : String := String.mk (s.toList.drop n)

/-- The suffix a single existing folder name contributes for `base_name`:
the fold of the source pipeline
`filter(starts_with) | transform(substr) | transform(regex parse) |
filter(has_value) | transform(deref)` for one element. -/
def parsed_suffix (base_name folder : String) : Option Int :=
  if str_starts_with folder base_name then
    (match_suffix_digits (str_drop folder base_name.length)).bind parse_int
  else none

/-- `file_janitor::get_collision_suffix`: `none` when `base_name` itself
is not among the existing folders; otherwise one more than the largest
suffix parsed from existing `"{base} ({k})"` names (`1` when there is
none).  `rng::max` over the collected suffixes is the fold below. -/
def get_collision_suffix (base_name : String) (existing_folder_names : List String) :
    Option Int :=
  if !existing_folder_names.contains base_name then none
  else
    match existing_folder_names.filterMap (parsed_suffix base_name) with
    | [] => some 1
    | x :: xs => some (xs.foldl max x + 1)

/-! ### Structure of `chunkBy` and of the generated plan -/

/-- `chunkBy` of a nonempty list starts with a chunk led by the head. -/
theorem chunkBy_cons (R : α → α → Bool) (x : α) (xs : List α) :
    ∃ t cs, chunkBy R (x :: xs) = (x :: t) :: cs := by
  induction xs generalizing x with
  | nil => exact ⟨[], [], rfl⟩
  | cons y rest ih =>
    obtain ⟨t, cs, h⟩ := ih y
    by_cases hr : R x y = true
    · exact ⟨y :: t, cs, by simp [chunkBy, h, hr]⟩
    · exact ⟨[], (y :: t) :: cs, by simp [chunkBy, h, hr]⟩

/-- Concatenating the chunks gives back the list. -/
theorem chunkBy_flatten (R : α → α → Bool) :
    ∀ l : List α, (chunkBy R l).flatten = l
  | [] => rfl
  | [a] => rfl
  | a :: b :: rest => by
    have ih := chunkBy_flatten R (b :: rest)
    obtain ⟨t, cs, h⟩ := chunkBy_cons R b rest
    rw [h] at ih
    by_cases hr : R a b = true <;> simp [chunkBy, h, hr, List.flatten] <;>
      simpa using ih

/-- No chunk is empty. -/
theorem chunkBy_ne_nil (R : α → α → Bool) :
    ∀ l : List α, ∀ c ∈ chunkBy R l, c ≠ []
  | [] => by simp [chunkBy]
  | [a] => by simp [chunkBy]
  | a :: b :: rest => by
    have ih := chunkBy_ne_nil R (b :: rest)
    obtain ⟨t, cs, h⟩ := chunkBy_cons R b rest
    intro c hc
    by_cases hr : R a b = true
    · rw [show chunkBy R (a :: b :: rest) = (a :: b :: t) :: cs by
        simp [chunkBy, h, hr]] at hc
      rcases List.mem_cons.mp hc with hc | hc
      · simp [hc]
      · exact ih c (by rw [h]; exact List.mem_cons_of_mem _ hc)
    · rw [show chunkBy R (a :: b :: rest) = [a] :: (b :: t) :: cs by
        simp [chunkBy, h, hr]] at hc
      rcases List.mem_cons.mp hc with hc | hc
      · simp [hc]
      · exact ih c (by rw [h]; exact hc)

/-- For the key-equality relation, every member of a chunk has the same key
as every other member of that chunk. -/
theorem chunkBy_key_eq (k : α → String) :
    ∀ l : List α, ∀ c ∈ chunkBy (fun u v => k u == k v) l,
      ∀ x ∈ c, ∀ y ∈ c, k x = k y
  | [] => by simp [chunkBy]
  | [a] => by simp [chunkBy]
  | a :: b :: rest => by
    have ih := chunkBy_key_eq k (b :: rest)
    obtain ⟨t, cs, h⟩ := chunkBy_cons (fun u v => k u == k v) b rest
    intro c hc x hx y hy
    by_cases hr : (k a == k b) = true
    · rw [show chunkBy (fun u v => k u == k v) (a :: b :: rest) = (a :: b :: t) :: cs by
        simp [chunkBy, h, hr]] at hc
      rcases List.mem_cons.mp hc with hc | hc
      · subst hc
        have hmem : (b :: t) ∈ chunkBy (fun u v => k u == k v) (b :: rest) := by
          rw [h]; exact List.mem_cons_self _ _
        have hall : ∀ z ∈ a :: b :: t, k z = k a := by
          intro z hz
          rcases List.mem_cons.mp hz with hz | hz
          · simp [hz]
          · have hzb := ih (b :: t) hmem z hz b (List.mem_cons_self _ _)
            rw [hzb]
            exact (eq_of_beq hr).symm
        rw [hall x hx, hall y hy]
      · exact ih c (by rw [h]; exact List.mem_cons_of_mem _ hc) x hx y hy
    · rw [show chunkBy (fun u v => k u == k v) (a :: b :: rest) = [a] :: (b :: t) :: cs by
        simp [chunkBy, h, hr]] at hc
      rcases List.mem_cons.mp hc with hc | hc
      · subst hc
        simp only [List.mem_singleton] at hx hy
        rw [hx, hy]
      · exact ih c (by rw [h]; exact hc) x hx y hy


/-- The chunk-then-flatten pipeline of `generate` is exactly one operation
per input file, each with the bucket name computed from that file's own
extension (all files of a chunk share the extension, so taking it from the
chunk's front makes no difference). -/
theorem generate_operations_eq (sorted_files : List ScannedFile) (root_path : Path) :
    (generate sorted_files root_path).operations = sorted_files.map (planOpFor root_path) := by
  unfold generate
  have hfilter :
      (chunkBy (fun a b : ScannedFile => a.ext == b.ext) sorted_files).filter
          (fun chunk => !chunk.isEmpty)
        = chunkBy (fun a b : ScannedFile => a.ext == b.ext) sorted_files := by
    apply List.filter_eq_self.mpr
    intro c hc
    have := chunkBy_ne_nil _ _ c hc
    simp [List.isEmpty_iff, this]
  rw [hfilter]
  have hmap :
      (chunkBy (fun a b : ScannedFile => a.ext == b.ext) sorted_files).map
          (make_move_plans root_path)
        = (chunkBy (fun a b : ScannedFile => a.ext == b.ext) sorted_files).map
            (List.map (planOpFor root_path)) := by
    apply List.map_congr_left
    intro c hc
    cases c with
    | nil => rfl
    | cons front tail =>
      have hkey := chunkBy_key_eq (fun f : ScannedFile => f.ext) sorted_files _ hc
      simp only [make_move_plans]
      apply List.map_congr_left
      intro file hfile
      have hext : file.ext = front.ext :=
        hkey file hfile front (List.mem_cons_self _ _)
      simp [planOpFor, make_bucket_name, hext]
  rw [hmap, ← List.map_flatten, chunkBy_flatten]

/-- Sorting permutes: inserting preserves the permutation class. -/
theorem perm_insertByExt (f : ScannedFile) :
    ∀ l : List ScannedFile, (insertByExt f l).Perm (f :: l)
  | [] => List.Perm.refl _
  | g :: gs => by
    by_cases h : strLe f.ext g.ext = true
    · simp [insertByExt, h]
    · rw [show insertByExt f (g :: gs) = g :: insertByExt f gs by
        simp [insertByExt, h]]
      exact (List.Perm.cons g (perm_insertByExt f gs)).trans (List.Perm.swap f g gs)

/-- `sort_by_extension` returns a permutation of its input. -/
theorem perm_sort_by_extension :
    ∀ l : List ScannedFile, (sort_by_extension l).Perm l
  | [] => List.Perm.refl _
  | f :: fs => by
    have h1 : sort_by_extension (f :: fs) = insertByExt f (sort_by_extension fs) := rfl
    rw [h1]
    exact (perm_insertByExt f (sort_by_extension fs)).trans
      (List.Perm.cons f (perm_sort_by_extension fs))


/-! ### Bookkeeping of the split executor's fold -/

/-- Every outcome, whatever it is, bumps `processed` by exactly one. -/
theorem accumulate_reports_processed (r : execution_report) (res : operation_result) :
    (accumulate_reports r res).processed_count_ = r.processed_count_ + 1 := by
  cases res <;> rfl

/-- Each accumulation step keeps `success + |failures| ≤ processed`. -/
theorem accumulate_reports_balance (r : execution_report) (res : operation_result)
    (h : r.success_count_ + r.failures_.length ≤ r.processed_count_) :
    (accumulate_reports r res).success_count_ + (accumulate_reports r res).failures_.length
      ≤ (accumulate_reports r res).processed_count_ := by
  cases res <;>
    simp [accumulate_reports, execution_report.with_processed,
      execution_report.with_success, execution_report.with_failure] <;>
    omega

/-- Along the fold, `processed` counts exactly the operations consumed. -/
theorem foldl_exec_step_processed (ops : List Operation) :
    ∀ (r : execution_report) (s : FS),
      ((ops.foldl exec_step (r, s)).1).processed_count_ = r.processed_count_ + ops.length := by
  induction ops with
  | nil => intro r s; simp
  | cons op rest ih =>
    intro r s
    have h := ih (exec_step (r, s) op).1 (exec_step (r, s) op).2
    rw [Prod.mk.eta] at h
    simp only [List.foldl, List.length_cons]
    rw [h]
    show (accumulate_reports r (process_operation s op).1).processed_count_ + rest.length
      = r.processed_count_ + (rest.length + 1)
    rw [accumulate_reports_processed]
    omega

/-- Along the fold, `success + |failures|` never exceeds `processed`. -/
theorem foldl_exec_step_balance (ops : List Operation) :
    ∀ (r : execution_report) (s : FS),
      r.success_count_ + r.failures_.length ≤ r.processed_count_ →
      ((ops.foldl exec_step (r, s)).1).success_count_
          + ((ops.foldl exec_step (r, s)).1).failures_.length
        ≤ ((ops.foldl exec_step (r, s)).1).processed_count_ := by
  induction ops with
  | nil => intro r s h; simpa using h
  | cons op rest ih =>
    intro r s h
    have h2 := accumulate_reports_balance r (process_operation s op).1 h
    exact ih _ _ h2

/-! ### Claim C2 -/

/-- C2: for every movement plan (and every filesystem state and every
pattern of per-operation success or failure the OS oracles can produce),
`fs_ops::executor::execute_plan` folds over the whole plan in order without
aborting on an individual operation's failure, and the returned report
satisfies `processed_count == |plan.operations|`. -/
theorem c2_processed_equals_plan_size (s : FS) (plan : MovementPlan) :
    ((executor_execute_plan s plan).1).processed_count = plan.operations.length := by
  have h := foldl_exec_step_processed plan.operations execution_report.start s
  simpa [executor_execute_plan, execution_report.processed_count,
    execution_report.start] using h

/-! ### Claim C5 -/

/-- C5: every execution report returned by
`fs_ops::executor::execute_plan` satisfies
`success_count + |failures| + skipped_count == processed_count`, where
`skipped_count` is derived as `processed_count - success_count - |failures|`
(and that derived quantity is never negative). -/
theorem c5_report_counts_balance (s : FS) (plan : MovementPlan) :
    ((executor_execute_plan s plan).1.success_count : Int)
        + (executor_execute_plan s plan).1.failure_count
        + (executor_execute_plan s plan).1.skipped_count
      = ((executor_execute_plan s plan).1.processed_count : Int)
    ∧ (executor_execute_plan s plan).1.skipped_count
      = ((executor_execute_plan s plan).1.processed_count : Int)
          - (executor_execute_plan s plan).1.success_count
          - (executor_execute_plan s plan).1.failure_count
    ∧ 0 ≤ (executor_execute_plan s plan).1.skipped_count := by
  have h := foldl_exec_step_balance plan.operations execution_report.start s (by decide)
  refine ⟨?_, ?_, ?_⟩
  · simp [execution_report.skipped_count, execution_report.failure_count,
      execution_report.success_count, execution_report.processed_count]
  · rfl
  · simp only [executor_execute_plan] at h ⊢
    simp [execution_report.skipped_count, execution_report.failure_count,
      execution_report.success_count, execution_report.processed_count]
    omega

/-! ### Claim C6 -/

/-- C6: an operation whose source equals its destination is recorded as
skipped by the split executor: the fold step increments `processed_count`
and leaves `success_count`, the failure list — and the filesystem —
untouched. -/
theorem c6_skip_is_processed_only (s : FS) (op : Operation) (r : execution_report)
    (h : op.source = op.destination) :
    process_operation s op = (operation_result.skipped, s)
    ∧ exec_step (r, s) op
        = ({ r with processed_count_ := r.processed_count_ + 1 }, s) := by
  have h1 : process_operation s op = (operation_result.skipped, s) := by
    simp [process_operation, h]
  refine ⟨h1, ?_⟩
  simp [exec_step, h1, accumulate_reports, execution_report.with_processed]

/-- Witness for C6 at a concrete no-op move. -/
theorem c6_skip_is_processed_only_witness :
    process_operation
        { entries := [["root", "a.txt"]], mkdirErr := fun _ => none,
          renameErr := fun _ _ => none }
        { source := ["root", "a.txt"], destination := ["root", "a.txt"], bucket_name := "txt" }
      = (operation_result.skipped,
          { entries := [["root", "a.txt"]], mkdirErr := fun _ => none,
            renameErr := fun _ _ => none })
    ∧ exec_step
        ({ failures_ := [], processed_count_ := 2, success_count_ := 1 },
          { entries := [["root", "a.txt"]], mkdirErr := fun _ => none,
            renameErr := fun _ _ => none })
        { source := ["root", "a.txt"], destination := ["root", "a.txt"], bucket_name := "txt" }
      = ({ failures_ := [], processed_count_ := 3, success_count_ := 1 },
          { entries := [["root", "a.txt"]], mkdirErr := fun _ => none,
            renameErr := fun _ _ => none }) :=
  c6_skip_is_processed_only
    { entries := [["root", "a.txt"]], mkdirErr := fun _ => none, renameErr := fun _ _ => none }
    { source := ["root", "a.txt"], destination := ["root", "a.txt"], bucket_name := "txt" }
    { failures_ := [], processed_count_ := 2, success_count_ := 1 }
    rfl

/-! ### Claim C3 -/

/-- `find?` over an arithmetic range returns the smallest satisfying index. -/
theorem find?_range'_eq (q : Nat → Bool) :
    ∀ (len a n : Nat), a ≤ n → n < a + len → q n = true →
      (∀ m, a ≤ m → m < n → q m = false) →
      (List.range' a len).find? q = some n := by
  intro len
  induction len with
  | zero => intro a n h1 h2; omega
  | succ k ih =>
    intro a n h1 h2 h3 h4
    rw [List.range'_succ]
    by_cases ha : n = a
    · subst ha
      simp [List.find?, h3]
    · have hqa : q a = false := h4 a le_rfl (by omega)
      rw [List.find?]
      rw [hqa]
      exact ih (a + 1) n (by omega) (by omega) h3 fun m hm1 hm2 => h4 m (by omega) hm2

/-- A filesystem in which a target and all 99 of its probe candidates
already exist — the configuration that exhausts the resolver's search. -/
def exhausted_fs (target : Path) : FS :=
  { entries := target :: make_candidate_paths (build_candidate target)
    mkdirErr := fun _ => none
    renameErr := fun _ _ => none }

/-- Counterexample to C3: the claim says the returned path "is never equal
to an existing entry at the moment of the check", with candidates probed
for `n = 1, 2, 3, …` unboundedly.  The source probes only
`n = 1, …, 99` (`vws::iota(1, 100)`) and, when every candidate exists,
`value_or(target)` silently falls back to the original *colliding* target:
here `resolve_collision` returns `f.txt` even though `f.txt` exists. -/
theorem c3_counterexample :
    resolve_collision (exhausted_fs ["f.txt"]) ["f.txt"] = ["f.txt"]
    ∧ safe_exists (exhausted_fs ["f.txt"]) ["f.txt"] = true := by
  constructor
  · decide
  · decide

/-- C3 (amended): if the desired path does not exist it is returned
unchanged; if it exists and some candidate `"{stem} ({n}){ext}"` with
`1 ≤ n ≤ 99` is free while all earlier candidates are taken, the resolver
returns exactly that candidate (which does not exist at the moment of the
check); if the target and all 99 candidates exist, the resolver falls back
to the original, colliding target. -/
theorem c3_resolver_policy (s : FS) (t : Path) :
    (safe_exists s t = false → resolve_collision s t = t)
    ∧ (∀ n, safe_exists s t = true → 1 ≤ n → n ≤ 99 →
        safe_exists s (target_candidate t n) = false →
        (∀ m, 1 ≤ m → m < n → safe_exists s (target_candidate t m) = true) →
        resolve_collision s t = target_candidate t n
          ∧ safe_exists s (resolve_collision s t) = false)
    ∧ (safe_exists s t = true →
        (∀ m, 1 ≤ m → m ≤ 99 → safe_exists s (target_candidate t m) = true) →
        resolve_collision s t = t) := by
  refine ⟨?_, ?_, ?_⟩
  · intro h
    simp [resolve_collision, does_target_exist, h]
  · intro n hex h1 h99 hfree hbefore
    have hfind :
        (make_candidate_paths (build_candidate t)).find? (fun c => !safe_exists s c)
          = some (target_candidate t n) := by
      rw [make_candidate_paths, List.find?_map]
      have h := find?_range'_eq
        (fun m => !safe_exists s (make_candidate_path (build_candidate t) m))
        99 1 n h1 (by omega) (by simpa [target_candidate] using hfree)
        (fun m hm1 hm2 => by
          have := hbefore m hm1 hm2
          simpa [target_candidate] using this)
      simp only [Function.comp_def]
      rw [h]
      rfl
    have hres : resolve_collision s t = target_candidate t n := by
      simp [resolve_collision, does_target_exist, hex, make_valid_candidate,
        find_valid_candidate, hfind]
    exact ⟨hres, by rw [hres]; exact hfree⟩
  · intro hex hall
    have hfind :
        (make_candidate_paths (build_candidate t)).find? (fun c => !safe_exists s c)
          = none := by
      rw [List.find?_eq_none]
      intro x hx
      rw [make_candidate_paths] at hx
      obtain ⟨m, hm, hxm⟩ := List.mem_map.mp hx
      have hmr : 1 ≤ m ∧ m < 1 + 99 := List.mem_range'_1.mp hm
      have := hall m hmr.1 (by omega)
      subst hxm
      simpa [target_candidate] using this
    simp [resolve_collision, does_target_exist, hex, make_valid_candidate,
      find_valid_candidate, hfind]

/-- Witness for C3 at concrete states: a free target is returned
unchanged; a taken target whose first candidate is also taken resolves to
candidate 2, and when everything is taken the original target comes back. -/
theorem c3_resolver_policy_witness :
    resolve_collision
        { entries := [], mkdirErr := fun _ => none, renameErr := fun _ _ => none }
        ["f.txt"]
      = ["f.txt"]
    ∧ resolve_collision
        { entries := [["f.txt"], ["f (1).txt"]], mkdirErr := fun _ => none,
          renameErr := fun _ _ => none }
        ["f.txt"]
      = ["f (2).txt"]
    ∧ resolve_collision (exhausted_fs ["g.txt"]) ["g.txt"] = ["g.txt"] := by
  refine ⟨?_, ?_, ?_⟩
  · exact (c3_resolver_policy
      { entries := [], mkdirErr := fun _ => none, renameErr := fun _ _ => none }
      ["f.txt"]).1 (by decide)
  · have h := ((c3_resolver_policy
      { entries := [["f.txt"], ["f (1).txt"]], mkdirErr := fun _ => none,
        renameErr := fun _ _ => none }
      ["f.txt"]).2.1 2 (by decide) (by decide) (by decide) (by decide)
      (fun m hm1 hm2 => by
        have hm : m = 1 := by omega
        subst hm
        decide)).1
    rw [h]
    decide
  · exact (c3_resolver_policy (exhausted_fs ["g.txt"]) ["g.txt"]).2.2 (by decide)
      (fun m hm1 hm2 => by
        have hmem : target_candidate ["g.txt"] m
            ∈ (exhausted_fs ["g.txt"]).entries := by
          apply List.mem_cons_of_mem
          rw [make_candidate_paths]
          apply List.mem_map.mpr
          exact ⟨m, List.mem_range'_1.mpr ⟨hm1, by omega⟩, rfl⟩
        show (exhausted_fs ["g.txt"]).entries.contains (target_candidate ["g.txt"] m) = true
        exact List.elem_eq_true_of_mem hmem)

/-! ### Claim C4 -/

/-- A digit character is not a minus sign. -/
theorem digit_ne_minus {c : Char} (h : c.isDigit = true) : c ≠ '-' := by
  intro he
  subst he
  simp [Char.isDigit] at h

/-- `parse_int` applied to the regex capture — a nonempty all-digit
string — never yields a negative value. -/
theorem parse_int_digits_nonneg (mid : List Char) (hne : mid ≠ [])
    (hdig : mid.all Char.isDigit = true) {v : Int}
    (h : parse_int (String.mk mid) = some v) : 0 ≤ v := by
  unfold parse_int at h
  cases mid with
  | nil => exact absurd rfl hne
  | cons c cs =>
    have hc : c.isDigit = true := by
      have := List.all_eq_true.mp hdig c (List.mem_cons_self _ _)
      simpa using this
    have hm : ¬ ((c :: cs).headD ' ' = '-') := by
      simpa using digit_ne_minus hc
    simp only [String.toList, String.mk] at h
    rw [if_neg hm] at h
    split at h
    · split at h
      · simp only [Option.some.injEq] at h
        omega
      · exact absurd h (by simp)
    · exact absurd h (by simp)

/-- `parsed_suffix` values are nonnegative. -/
theorem parsed_suffix_nonneg {base folder : String} {v : Int}
    (h : parsed_suffix base folder = some v) : 0 ≤ v := by
  unfold parsed_suffix at h
  split at h
  · match hm : match_suffix_digits (str_drop folder base.length) with
    | none => rw [hm] at h; exact absurd h (by simp)
    | some d =>
      rw [hm] at h
      have hp : parse_int d = some v := h
      unfold match_suffix_digits at hm
      split at hm
      · split at hm
        · split at hm
          · rename_i hcond
            simp only [Option.some.injEq] at hm
            rw [← hm] at hp
            exact parse_int_digits_nonneg _ hcond.1 (by simpa using hcond.2) hp
          · exact absurd hm (by simp)
        · exact absurd hm (by simp)
      · exact absurd hm (by simp)
  · exact absurd h (by simp)

/-- The initial value bounds a `foldl max`. -/
theorem init_le_foldl_max : ∀ (l : List Int) (x : Int), x ≤ l.foldl max x := by
  intro l
  induction l with
  | nil => intro x; exact le_refl x
  | cons a l ih =>
    intro x
    exact le_trans (le_max_left x a) (ih (max x a))

/-- Every member bounds a `foldl max`. -/
theorem mem_le_foldl_max : ∀ (l : List Int) (x v : Int), v ∈ l → v ≤ l.foldl max x := by
  intro l
  induction l with
  | nil => intro x v hv; exact absurd hv (List.not_mem_nil v)
  | cons a l ih =>
    intro x v hv
    rcases List.mem_cons.mp hv with hv | hv
    · subst hv
      exact le_trans (le_max_right x v) (init_le_foldl_max l (max x v))
    · exact ih (max x a) v hv

/-- Counterexample to C4: the claim says the estimator returns the lowest
positive `k` with no existing folder named `"{base} (k)"`.  With folders
`Images` and `Images (2)` present, the lowest such `k` is `1` —
`"Images (1)"` is not among the existing names — yet
`get_collision_suffix` returns `max + 1 = 3`. -/
theorem c4_counterexample :
    get_collision_suffix "Images" ["Images", "Images (2)"] = some 3
    ∧ ["Images", "Images (2)"].contains "Images (1)" = false := by
  constructor
  · decide
  · decide

/-- C4 (amended): the estimator returns `none` when the base name itself is
not among the existing folders; otherwise it returns some `k ≥ 1` equal to
one plus the largest suffix parsed from existing `"{base} (n)"` names (`1`
when none parses) — every suffix in use is strictly below `k`, but `k`
need not be the lowest free suffix when the used suffixes have gaps. -/
theorem c4_estimator_max_plus_one (base : String) (existing : List String) :
    (existing.contains base = false → get_collision_suffix base existing = none)
    ∧ (existing.contains base = true →
        ∃ k : Int, get_collision_suffix base existing = some k ∧ 1 ≤ k
          ∧ ∀ folder ∈ existing, ∀ v : Int,
              parsed_suffix base folder = some v → v < k) := by
  constructor
  · intro h
    unfold get_collision_suffix
    rw [h]
    rfl
  · intro h
    match hs : existing.filterMap (parsed_suffix base) with
    | [] =>
      refine ⟨1, ?_, le_refl 1, ?_⟩
      · unfold get_collision_suffix
        rw [h, hs]
        rfl
      · intro folder hf v hv
        have : v ∈ existing.filterMap (parsed_suffix base) :=
          List.mem_filterMap.mpr ⟨folder, hf, hv⟩
        rw [hs] at this
        exact absurd this (List.not_mem_nil v)
    | x :: xs =>
      refine ⟨xs.foldl max x + 1, ?_, ?_, ?_⟩
      · unfold get_collision_suffix
        rw [h, hs]
        rfl
      · have hx : x ∈ existing.filterMap (parsed_suffix base) := by
          rw [hs]; exact List.mem_cons_self _ _
        obtain ⟨folder, _, hp⟩ := List.mem_filterMap.mp hx
        have := parsed_suffix_nonneg hp
        have := init_le_foldl_max xs x
        omega
      · intro folder hf v hv
        have hmem : v ∈ existing.filterMap (parsed_suffix base) :=
          List.mem_filterMap.mpr ⟨folder, hf, hv⟩
        rw [hs] at hmem
        rcases List.mem_cons.mp hmem with hveq | hvmem
        · subst hveq
          have := init_le_foldl_max xs v
          omega
        · have := mem_le_foldl_max xs x v hvmem
          omega

/-- Witness for C4: the base missing gives `none`; with `Images` and
`Images (1)` existing the estimator yields a suffix, and direct evaluation
pins it to `2` — the behavior the spec's example requires. -/
theorem c4_estimator_max_plus_one_witness :
    get_collision_suffix "Images" ["Docs"] = none
    ∧ (∃ k : Int, get_collision_suffix "Images" ["Images", "Images (1)"] = some k
        ∧ 1 ≤ k
        ∧ ∀ folder ∈ ["Images", "Images (1)"], ∀ v : Int,
            parsed_suffix "Images" folder = some v → v < k)
    ∧ get_collision_suffix "Images" ["Images", "Images (1)"] = some 2
    ∧ get_collision_suffix "Images" ["Images"] = some 1 :=
  ⟨(c4_estimator_max_plus_one "Images" ["Docs"]).1 (by decide),
   (c4_estimator_max_plus_one "Images" ["Images", "Images (1)"]).2 (by decide),
   by decide, by decide⟩

/-! ### Claim C1 -/

/-- Counterexample to C1: the claim says each operation's bucket name is
the category produced by the extension classifier
(`file_janitor::get_folder_name`), so that `a.png`, `b.py` and `c` map to
`<root>/Images/a.png`, `<root>/Source Code/b.py` and
`<root>/No Extension/c`.  The plan builder actually derives the bucket
from `make_bucket_name` — the raw extension without its dot, or
`"no_extension"` — and never consults the classifier: the three
destinations are `<root>/png/a.png`, `<root>/py/b.py` and
`<root>/no_extension/c`, and no operation targets `<root>/Images/a.png`.
(The three extensions are distinct, so every permitted sort order yields
this same plan.) -/
theorem c1_counterexample :
    (generate_plan [["a.png"], ["b.py"], ["c"]] ["root"]).operations.map (·.destination)
      = [["root", "no_extension", "c"], ["root", "png", "a.png"], ["root", "py", "b.py"]]
    ∧ ["root", "Images", "a.png"]
        ∉ (generate_plan [["a.png"], ["b.py"], ["c"]] ["root"]).operations.map
            (·.destination) := by
  constructor
  · decide
  · decide

/-- C1 (amended): the plan builder emits exactly one operation per file
with `destination = root / bucket_name / source.filename()`, where
`bucket_name` is `make_bucket_name` of the file's normalized extension —
`"no_extension"` for extensionless files, otherwise the extension without
its leading dot (never the classifier's category name). -/
theorem c1_one_operation_per_file (raw_files : List Path) (root_path : Path) :
    (generate_plan raw_files root_path).operations.length = raw_files.length
    ∧ (∀ op ∈ (generate_plan raw_files root_path).operations,
        op.destination = pjoin (pjoin root_path op.bucket_name) (pfilename op.source)
        ∧ op.bucket_name
          = make_bucket_name { path := op.source, ext := normalize_extension op.source })
    ∧ ((generate_plan raw_files root_path).operations.map (·.source)).Perm raw_files := by
  have hgen : (generate_plan raw_files root_path).operations
      = (sort_by_extension (decorate_with_extensions raw_files)).map (planOpFor root_path) :=
    generate_operations_eq _ _
  have hperm : (sort_by_extension (decorate_with_extensions raw_files)).Perm
      (decorate_with_extensions raw_files) := perm_sort_by_extension _
  refine ⟨?_, ?_, ?_⟩
  · rw [hgen, List.length_map, hperm.length_eq, decorate_with_extensions,
      List.length_map]
  · intro op hop
    rw [hgen] at hop
    obtain ⟨f, hf, hfop⟩ := List.mem_map.mp hop
    have hfd : f ∈ decorate_with_extensions raw_files := hperm.mem_iff.mp hf
    obtain ⟨p, _, hpf⟩ := List.mem_map.mp hfd
    subst hfop
    constructor
    · rfl
    · show make_bucket_name f
        = make_bucket_name { path := f.path, ext := normalize_extension f.path }
      rw [← hpf]
  · rw [hgen, List.map_map]
    have hsrc : (sort_by_extension (decorate_with_extensions raw_files)).map
          ((fun op : Operation => op.source) ∘ planOpFor root_path)
        = (sort_by_extension (decorate_with_extensions raw_files)).map
            (fun f : ScannedFile => f.path) :=
      List.map_congr_left fun f _ => rfl
    rw [hsrc]
    have h3 : ((decorate_with_extensions raw_files).map (fun f : ScannedFile => f.path))
        = raw_files := by
      rw [decorate_with_extensions, List.map_map]
      have h4 : raw_files.map
            ((fun f : ScannedFile => f.path)
              ∘ fun p => ({ path := p, ext := normalize_extension p } : ScannedFile))
          = raw_files.map (fun p => p) :=
        List.map_congr_left fun p _ => rfl
      rw [h4, List.map_id']
    have h5 := hperm.map (fun f : ScannedFile => f.path)
    rw [h3] at h5
    exact h5

/-- Witness for C1 on the spec's own scenario (`a.png`, `b.py`, `c`): the
plan has three operations, the operation planned for `a.png` satisfies the
destination equation with bucket `"png"`, and the plan's sources are a
permutation of the input. -/
theorem c1_one_operation_per_file_witness :
    (generate_plan [["a.png"], ["b.py"], ["c"]] ["root"]).operations.length = 3
    ∧ (({ source := ["a.png"], destination := ["root", "png", "a.png"],
          bucket_name := "png" } : Operation).destination
        = pjoin (pjoin ["root"] "png") (pfilename ["a.png"]))
    ∧ ((generate_plan [["a.png"], ["b.py"], ["c"]] ["root"]).operations.map
          (·.source)).Perm [["a.png"], ["b.py"], ["c"]] := by
  have h := c1_one_operation_per_file [["a.png"], ["b.py"], ["c"]] ["root"]
  refine ⟨h.1, ?_, h.2.2⟩
  exact (h.2.1
    { source := ["a.png"], destination := ["root", "png", "a.png"], bucket_name := "png" }
    (by decide)).1

/-! ### Claim C7 -/

/-- Counterexample to C7: the claim says bucketizing *stable*-sorts by
extension, files with equal extensions keeping their scan order.  The
source calls `std::ranges::sort`, whose contract (`SortSpec`) promises a
permutation ordered by the key but leaves the order of equal keys
unspecified: for the scan order `b.png`, `a.png` (equal extensions), the
reversed output is also a permitted sort result, so the code does not
guarantee the claimed stability. -/
theorem c7_counterexample :
    SortSpec
        [{ path := ["b.png"], ext := ".png" }, { path := ["a.png"], ext := ".png" }]
        [{ path := ["a.png"], ext := ".png" }, { path := ["b.png"], ext := ".png" }]
    ∧ ([{ path := ["a.png"], ext := ".png" }, { path := ["b.png"], ext := ".png" }]
        : List ScannedFile)
      ≠ [{ path := ["b.png"], ext := ".png" }, { path := ["a.png"], ext := ".png" }] := by
  refine ⟨⟨List.Perm.swap _ _ _, ?_⟩, by decide⟩
  decide

/-- C7 (amended): bucketizing sorts the files by extension with
`std::ranges::sort`, which guarantees a permutation ordered by the
extension key but not stability; hence for a fixed input the plan is
determined only up to the order of files sharing an extension — any
permitted sort output yields one operation per file, with the plan's
sources a permutation of the input paths. -/
theorem c7_sort_contract_plan (input output : List ScannedFile) (root_path : Path)
    (h : SortSpec input output) :
    (generate output root_path).operations.length = input.length
    ∧ ((generate output root_path).operations.map (·.source)).Perm
        (input.map (·.path)) := by
  obtain ⟨hperm, _⟩ := h
  constructor
  · rw [generate_operations_eq, List.length_map, hperm.length_eq]
  · rw [generate_operations_eq, List.map_map]
    have hsrc : output.map ((fun op : Operation => op.source) ∘ planOpFor root_path)
        = output.map (fun f : ScannedFile => f.path) :=
      List.map_congr_left fun f _ => rfl
    rw [hsrc]
    exact hperm.map _

/-- Witness for C7 at the two-file tie: the reversed output is a permitted
sort result and still plans one operation per file, sources permuting the
input. -/
theorem c7_sort_contract_plan_witness :
    (generate [{ path := ["a.png"], ext := ".png" }, { path := ["b.png"], ext := ".png" }]
        ["r"]).operations.length
      = ([{ path := ["b.png"], ext := ".png" }, { path := ["a.png"], ext := ".png" }]
          : List ScannedFile).length
    ∧ ((generate [{ path := ["a.png"], ext := ".png" },
          { path := ["b.png"], ext := ".png" }] ["r"]).operations.map (·.source)).Perm
        (([{ path := ["b.png"], ext := ".png" }, { path := ["a.png"], ext := ".png" }]
          : List ScannedFile).map (·.path)) :=
  c7_sort_contract_plan
    [{ path := ["b.png"], ext := ".png" }, { path := ["a.png"], ext := ".png" }]
    [{ path := ["a.png"], ext := ".png" }, { path := ["b.png"], ext := ".png" }]
    ["r"] ⟨List.Perm.swap _ _ _, by decide⟩

/-! ### Claim C8 -/

/-- C8: `normalize_extension` lowercases `photo.PNG`'s extension to
`".png"`, the monolithic pipeline decorates with it and groups `photo.PNG`
with `scan.png` in one bucket — but the split planner's
`decorate_with_extensions` (src/src/fs_ops/planner/planner.cxx) passes
`p.extension().string()` instead of `p` to `normalize_extension`; the
single-component path `".PNG"` has *no* extension under the
`std::filesystem` dotfile rule, so every file is decorated with the empty
extension instead of its normalized one — the code contradicts the
claimed (and clearly intended) decoration. -/
theorem c8_planner_decoration_bug :
    normalize_extension ["photo.PNG"] = ".png"
    ∧ decorate_with_extensions [["photo.PNG"], ["scan.png"]]
        = [{ path := ["photo.PNG"], ext := ".png" },
           { path := ["scan.png"], ext := ".png" }]
    ∧ (generate_plan [["photo.PNG"], ["scan.png"]] ["root"]).operations.map
          (·.bucket_name)
        = ["png", "png"]
    ∧ planner.decorate_with_extensions [["photo.PNG"]]
        = [{ path := ["photo.PNG"], ext := "" }] := by
  refine ⟨by decide, by decide, by decide, by decide⟩

/-! ### Claim C9 -/

/-- A concrete filesystem for exercising the monolithic executor's skip
path: the root, a bucket folder and a file inside it already exist. -/
def c9_fs : FS :=
  { entries := [["root"], ["root", "b"], ["root", "b", "f.txt"]]
    mkdirErr := fun _ => none
    renameErr := fun _ _ => none }

/-- A no-op move (source equals destination) of the file in `c9_fs`. -/
def c9_op : Operation :=
  { source := ["root", "b", "f.txt"], destination := ["root", "b", "f.txt"]
    bucket_name := "b" }

/-- C9: the monolithic pipeline (src/src/fs_ops.cxx) and the split
planner/executor pipeline are claimed to produce the same plan, report and
filesystem effects.  They do not: (i) for the single input `a.png` the
monolithic planner emits destination `root/png/a.png` while the split
planner — whose `decorate_with_extensions` drops every extension (see C8)
— emits `root/no_extension/a.png`; (ii) on a `source == destination`
operation the monolithic `execute` still creates directories, resolves
collisions and renames (changing the filesystem), while the split
executor's `process_operation` skips before touching the filesystem. -/
theorem c9_variants_diverge :
    (generate_plan [["a.png"]] ["root"]).operations
      = [{ source := ["a.png"], destination := ["root", "png", "a.png"],
           bucket_name := "png" }]
    ∧ (planner.generate_plan [["a.png"]] ["root"]).operations
      = [{ source := ["a.png"], destination := ["root", "no_extension", "a.png"],
           bucket_name := "no_extension" }]
    ∧ generate_plan [["a.png"]] ["root"] ≠ planner.generate_plan [["a.png"]] ["root"]
    ∧ (execute c9_fs c9_op
          { failures := [], processed_count := 0, success_count := 0 }).2.entries
      ≠ c9_fs.entries
    ∧ (process_operation c9_fs c9_op).2.entries = c9_fs.entries := by
  refine ⟨by decide, by decide, by decide, by decide, rfl⟩

/-! ### Claim C10 -/

/-- C10: in the monolithic `fs_ops::execute`, a `source == destination`
operation is reported as processed-only — `processed_count` is bumped,
`success_count` is unchanged and no failure is recorded (the failure list
of the result is empty: the skip branch returns the moved-from report,
whose vector was emptied by the lambda capture) — yet the returned
filesystem state is exactly the state after performing the
parent-directory creation, collision resolution and rename, because
`result` is computed eagerly before the skip check: a skipped operation is
not free of filesystem effects. -/
theorem c10_skip_still_touches_fs (s : FS) (op : Operation) (r : ExecutionReport)
    (h : op.source = op.destination) :
    (execute s op r).2 = (mono_move s op).2
    ∧ (execute s op r).1.processed_count = r.processed_count + 1
    ∧ (execute s op r).1.success_count = r.success_count
    ∧ (execute s op r).1.failures = [] := by
  refine ⟨?_, ?_, ?_, ?_⟩ <;>
    simp [execute, h, ExecutionReport.with_processed]

/-- A concrete filesystem for the C10 witness. -/
def c10_fs : FS :=
  { entries := [["home"], ["home", "pics"], ["home", "pics", "x.png"]]
    mkdirErr := fun _ => none
    renameErr := fun _ _ => none }

/-- A no-op move of the existing file in `c10_fs`. -/
def c10_op : Operation :=
  { source := ["home", "pics", "x.png"], destination := ["home", "pics", "x.png"]
    bucket_name := "png" }

/-- Witness for C10: on a real skip the counters move as claimed and the
filesystem is actually mutated (the file gets renamed to `x (1).png` by
the eagerly executed move path). -/
theorem c10_skip_still_touches_fs_witness :
    (execute c10_fs c10_op
        { failures := [{ source := ["s"], intended_destination := ["d"], error := 7 }],
          processed_count := 5, success_count := 2 }).1.processed_count = 6
    ∧ (execute c10_fs c10_op
        { failures := [{ source := ["s"], intended_destination := ["d"], error := 7 }],
          processed_count := 5, success_count := 2 }).1.success_count = 2
    ∧ (execute c10_fs c10_op
        { failures := [{ source := ["s"], intended_destination := ["d"], error := 7 }],
          processed_count := 5, success_count := 2 }).2.entries ≠ c10_fs.entries := by
  have h := c10_skip_still_touches_fs c10_fs c10_op
    { failures := [{ source := ["s"], intended_destination := ["d"], error := 7 }],
      processed_count := 5, success_count := 2 } rfl
  refine ⟨?_, ?_, ?_⟩
  · rw [h.2.1]
  · rw [h.2.2.1]
  · rw [h.1]
    decide



end FileJanitor
